import Mathlib

/-!
# Verification of the Inovesa core: rotation heritage map and aligned array container

Shallow embedding of the stencil-table builder and apply operator of
`src/HM/RotationMap.cpp` (class `vfps::RotationMap`) and of the bounds-checked
array container of `inc/Array.h` (classes `array1`, `array2`, `Array1`).

Machine integers of type `unsigned int` are modelled as natural numbers with
explicit reduction modulo `2 ^ 32` where the C++ arithmetic can wrap; the
floating mesh types (`meshaxis_t`, `interpol_t`, `meshdata_t`) are modelled by
exact rationals.
-/

namespace Inovesa

/-- Width of the C++ `unsigned int` arithmetic used by the map builder. -/
def u32 : Nat := 2 ^ 32

/-- One stencil entry, C++ struct `hi` (a source index into the flattened
input field and an interpolation weight). -/
structure hi where
  index : Nat
  weight : ℚ
deriving DecidableEq

/-- The 1-D interpolation coefficient vector `icq` (resp. `icp`) computed by
the `RotationMap` constructor from a fractional offset, one branch per value
of `INTERPOL_TYPE` (RotationMap.cpp lines 94-130).  Orders outside `{1,2,3,4}`
have no branch in the source and yield the empty list. -/
def icoeff : Nat → ℚ → List ℚ
  | 1, _ => [1]
  | 2, x => [1 - x, x]
  | 3, x => [x * (x - 1) / 2, 1 - x * x, x * (x + 1) / 2]
  | 4, x => [(x - 1) * (x - 2) * x * (-(1 : ℚ) / 6),
             (x + 1) * (x - 1) * (x - 2) / 2,
             (2 - x) * x * (x + 1) / 2,
             x * (x + 1) * (x - 1) * ((1 : ℚ) / 6)]
  | _, _ => []

/-- The kernel-centering offset `(INTERPOL_TYPE-1)/2` (integer division)
subtracted at RotationMap.cpp lines 144 and 146. -/
def ofs (n : Nat) : Nat := (n - 1) / 2

/-- The unsigned computation `id + i1 - (INTERPOL_TYPE-1)/2` of RotationMap.cpp
lines 144/146: `unsigned int` arithmetic, so a result below zero wraps
modulo `2^32`. -/
def upos (idv i1 n : Nat) : Nat := (idv + i1 + u32 - ofs n) % u32

/-- One entry written by the heritage-map assembly loop (RotationMap.cpp lines
145-155): position `(i1, j1)` of the kernel holds the flattened index
`i0*_ysize+j0` and weight `hmc[i1*INTERPOL_TYPE+j1]` when the cell is
in-bounds, and the zero sentinel `{0,0}` otherwise. -/
def buildEntry (xsize ysize n idv jdv : Nat) (hmc : List ℚ) (i1 j1 : Nat) : hi :=
  let i0 := upos idv i1 n
  let j0 := upos jdv j1 n
  if i0 < xsize ∧ j0 < ysize then
    ⟨(i0 * ysize + j0) % u32, hmc.getD (i1 * n + j1) 0⟩
  else
    ⟨0, 0⟩

/-- The interpolation weight matrix assembled at RotationMap.cpp lines 132-136:
`hmc[hmp*INTERPOL_TYPE+hmq] = icq[hmp] * icp[hmq]`, i.e. entry `k` holds
`icq[k / n] * icp[k % n]`. -/
def hmcList (n : Nat) (xiq xip : ℚ) : List ℚ :=
  (List.range (n * n)).map
    (fun k => (icoeff n xiq).getD (k / n) 0 * (icoeff n xip).getD (k % n) 0)

/-- The stencil row assembled for an in-range mapped cell `(idv, jdv)` with
fractional offsets `(xiq, xip)` (RotationMap.cpp lines 85-156): the row
position `i1*n+j1` receives the entry for kernel offsets `(i1, j1)`
(line 153). -/
def buildRow (xsize ysize n idv jdv : Nat) (xiq xip : ℚ) : List hi :=
  (List.range (n * n)).map
    (fun k => buildEntry xsize ysize n idv jdv (hmcList n xiq xip) (k / n) (k % n))

/-- The full stencil row of one target point after the `id < _xsize && jd < _ysize`
test of RotationMap.cpp line 82.

Modelled from the spec: the initial content of `_heritage_map` comes from the
`HeritageMap` base-class constructor, which is not under `src/`; the spec
states that for an out-of-range mapped cell "the entire row is left as
zero-weight/zero-index entries", so the untouched row is modelled as the
all-`{0,0}` row. -/
def targetRow (xsize ysize n idv jdv : Nat) (xiq xip : ℚ) : List hi :=
  if idv < xsize ∧ jdv < ysize then
    buildRow xsize ysize n idv jdv xiq xip
  else
    List.replicate (n * n) ⟨0, 0⟩

/-- The accumulation of one output cell by `RotationMap::apply`
(RotationMap.cpp lines 202-207): start from `0` and add
`data_in[h.index] * h.weight` for every entry of the row, with no branch on
entry validity. -/
def applyRow (input : Nat → ℚ) (row : List hi) : ℚ :=
  row.foldl (fun acc h => acc + input h.index * h.weight) 0

/-- The sequential apply operator over a whole heritage map: one output cell
per stencil row (RotationMap.cpp lines 202-207). -/
def applyHM (input : Nat → ℚ) (hm : List (List hi)) : List ℚ :=
  hm.map (applyRow input)

/-- The kernel node positions relative to the mapped cell: kernel offset `a`
addresses the absolute cell `id + a - (n-1)/2`, i.e. relative position
`a - (n-1)/2` (RotationMap.cpp lines 144/146). -/
def kernelNodes (n : Nat) : List ℚ :=
  (List.range n).map (fun a => (a : ℚ) - (ofs n : ℚ))

/-- The standard Lagrange polynomial-interpolation basis function for node `j`
of the node list, evaluated at `x`. -/
def lagrangeBasis (nodes : List ℚ) (j : Nat) (x : ℚ) : ℚ :=
  ((nodes.eraseIdx j).map (fun t => x - t)).prod /
    ((nodes.eraseIdx j).map (fun t => nodes.getD j 0 - t)).prod

/-- The ROTATION_TYPE 1 backward-mapped q coordinate (RotationMap.cpp lines
47-52), with `cos_dt = cos(angle)` and `sin_dt = -sin(angle)` kept as exact
rational parameters; the rotation angle `0` corresponds to `(1, 0)`. -/
def rotCoordQ (xsize ysize : Nat) (cos_dt sin_dt : ℚ) (q_i p_i : Nat) : ℚ :=
  cos_dt * ((q_i : ℚ) - (xsize : ℚ) / 2) - sin_dt * ((p_i : ℚ) - (ysize : ℚ) / 2) +
    (xsize : ℚ) / 2

/-- The ROTATION_TYPE 1 backward-mapped p coordinate (RotationMap.cpp lines
47-52). -/
def rotCoordP (xsize ysize : Nat) (cos_dt sin_dt : ℚ) (q_i p_i : Nat) : ℚ :=
  sin_dt * ((q_i : ℚ) - (xsize : ℚ) / 2) + cos_dt * ((p_i : ℚ) - (ysize : ℚ) / 2) +
    (ysize : ℚ) / 2

/-- The integer part extracted by `std::modf` (RotationMap.cpp lines 77-80):
truncation toward zero. -/
def coordIntPart (c : ℚ) : Int := if 0 ≤ c then ⌊c⌋ else ⌈c⌉

/-- The fractional part extracted by `std::modf`. -/
def coordFrac (c : ℚ) : ℚ := c - (coordIntPart c : ℚ)

/-- The conversion of the modf integer part to `unsigned int`
(RotationMap.cpp lines 79-80).  For values in `[0, 2^32)` this is the
identity; for a negative value the C++ floating-to-unsigned conversion is
undefined and is modelled as the customary wraparound. -/
def castUInt (z : Int) : Nat := (z % (2 ^ 32 : Int)).toNat

/-- The stencil row of target `(q_i, p_i)` for the rotation transform. -/
def rotTargetRow (xsize ysize n : Nat) (cos_dt sin_dt : ℚ) (q_i p_i : Nat) : List hi :=
  targetRow xsize ysize n
    (castUInt (coordIntPart (rotCoordQ xsize ysize cos_dt sin_dt q_i p_i)))
    (castUInt (coordIntPart (rotCoordP xsize ysize cos_dt sin_dt q_i p_i)))
    (coordFrac (rotCoordQ xsize ysize cos_dt sin_dt q_i p_i))
    (coordFrac (rotCoordP xsize ysize cos_dt sin_dt q_i p_i))

/-- The rotation heritage map, one stencil row per target point, flattened
row-major: target `(q_i, p_i)` sits at linear index `q_i*_ysize+p_i`, the same
layout `i0*_ysize+j0` used for source indices (RotationMap.cpp line 148). -/
def rotationMap (xsize ysize n : Nat) (cos_dt sin_dt : ℚ) : List (List hi) :=
  (List.range (xsize * ysize)).map
    (fun i => rotTargetRow xsize ysize n cos_dt sin_dt (i / ysize) (i % ysize))

/-- The four saturation sample positions `x*INTERPOL_TYPE+y` for `x, y` in
`{1, 2}`, in loop visiting order (RotationMap.cpp lines 212-216). -/
def satIdx (n : Nat) : List Nat := [1 * n + 1, 1 * n + 2, 2 * n + 1, 2 * n + 2]

/-- The input samples read by the overshoot-handling pass:
`data_in[_heritage_map1D[i][x*INTERPOL_TYPE+y].index]`
(RotationMap.cpp lines 214-215). -/
def satSamples (input : Nat → ℚ) (row : List hi) (n : Nat) : List ℚ :=
  (satIdx n).map (fun k => input ((row.getD k ⟨0, 0⟩).index))

/-- The `ceil` accumulator of RotationMap.cpp lines 210-216.

Modelled from the spec: the C++ accumulators start at
`std::numeric_limits<meshdata_t>::min()` / `::max()`, but `meshdata_t` is
defined outside `src/`; the spec fixes the clamp bounds to exactly the
`[min, max]` of the designated samples, so the initializers are modelled as
identities of `max` / `min` (the fold is seeded with the first sample, which
is idempotent). -/
def satCeil (samples : List ℚ) : ℚ := samples.foldl max (samples.headD 0)

/-- The `flor` accumulator of RotationMap.cpp lines 211-216 (same modelling
note as `satCeil`). -/
def satFlor (samples : List ℚ) : ℚ := samples.foldl min (samples.headD 0)

/-- The saturating apply of one row (`INTERPOL_SATURATING == 1`,
RotationMap.cpp lines 202-219): the weighted sum, then
`data_out[i] = std::max(std::min(ceil, data_out[i]), flor)`. -/
def applySatRow (n : Nat) (input : Nat → ℚ) (row : List hi) : ℚ :=
  max (min (satCeil (satSamples input row n)) (applyRow input row))
    (satFlor (satSamples input row n))

/-- Concrete order-4 stencil row used to separate the saturation sample
positions used by the code from the ones named in the specification: entry
`k` has source index `k`; only entry `0` carries weight. -/
def satCexRow : List hi :=
  [⟨0, 10⟩, ⟨1, 0⟩, ⟨2, 0⟩, ⟨3, 0⟩, ⟨4, 0⟩, ⟨5, 0⟩, ⟨6, 0⟩, ⟨7, 0⟩,
   ⟨8, 0⟩, ⟨9, 0⟩, ⟨10, 0⟩, ⟨11, 0⟩, ⟨12, 0⟩, ⟨13, 0⟩, ⟨14, 0⟩, ⟨15, 0⟩]

/-- Concrete input field for the saturation counterexample. -/
def satCexInput : Nat → ℚ := fun k =>
  if k = 0 then 10 else if k = 4 then 1 else if k = 5 then 0
  else if k = 6 then 10 else if k = 8 then 1 else if k = 9 then 0
  else if k = 10 then 10 else 0

/-! ### The bounds-checked array container of inc/Array.h -/

/-- The tail of the out-of-bounds message built by `array1::Check`
(Array.h lines 244-259): either the empty-array remark, or the violated
bound (`"< o"` for a low index, `"> n+o-1"` for a high one). -/
inductive BoundTail where
  | emptyArr : BoundTail
  | below : Int → BoundTail
  | above : Int → BoundTail
deriving DecidableEq

/-- The data reported by `array1::Check` on an out-of-bounds index: the
dimension label (`"Array" << dim`), which index of the access (`m`, printed
when non-zero), the attempted value (`i + o`), and the bound information. -/
structure BoundsReport where
  dim : Nat
  m : Nat
  attempted : Int
  tail : BoundTail
deriving DecidableEq

/-- The faults reported through `ArrayExit`: a bounds report, the
unallocated-array report of `CheckSize`, or the incompatible-shape report of
`CheckEqual`. -/
inductive ArrayFault where
  | bounds : BoundsReport → ArrayFault
  | unallocated : ArrayFault
  | incompatible : Nat → Nat → Int → Int → ArrayFault
deriving DecidableEq

/-- Embedding of `array1::Check(i, n, dim, m, o)` (Array.h lines 244-259): faults iff
`i < 0 || i >= n`, reporting the attempted value `i+o` and the violated
bound. -/
def Check (i n : Int) (dim m : Nat) (o : Int) : Except BoundsReport Unit :=
  if i < 0 ∨ n ≤ i then
    Except.error
      { dim := dim, m := m, attempted := i + o,
        tail := if n = 0 then BoundTail.emptyArr
                else if i < 0 then BoundTail.below o
                else BoundTail.above (n + o - 1) }
  else Except.ok ()

/-- A 1-D array: buffer contents plus the `allocated` state bit (the fields
of `array1` that the claims depend on; `_size` is the buffer length). -/
structure CArr1 where
  v : List ℚ
  allocated : Bool
deriving DecidableEq

/-- Embedding of `array1::CheckSize` (Array.h lines 167-170): faults only when the array
is unallocated and has size `0`. -/
def checkSize1 (A : CArr1) : Except ArrayFault Unit :=
  if A.allocated = false ∧ A.v.length = 0 then Except.error ArrayFault.unallocated
  else Except.ok ()

/-- Embedding of `array1::operator()` (Array.h line 265): checked element read,
`__check(ix, _size, 1, 1)`. -/
def a1_call (A : CArr1) (ix : Int) : Except BoundsReport ℚ :=
  match Check ix A.v.length 1 1 0 with
  | Except.error r => Except.error r
  | Except.ok _ => Except.ok (A.v.getD ix.toNat 0)

/-- Embedding of `Array1::operator[]` of the offset-indexed variant (Array.h lines 1377
and 1405-1409): checks `ix - ox` against the size with displayed offset `ox`
and reads `voff[ix] = v[ix - ox]`. -/
def A1_sub (v : List ℚ) (ox ix : Int) : Except BoundsReport ℚ :=
  match Check (ix - ox) v.length 1 1 ox with
  | Except.error r => Except.error r
  | Except.ok _ => Except.ok (v.getD (ix - ox).toNat 0)

/-- Embedding of `array2::operator()(int ix, int iy)` (Array.h lines 861-865): both index
checks, then the flattened read `v[ix*ny+iy]`. -/
def a2_call2 (nx ny : Nat) (v : List ℚ) (ix iy : Int) : Except BoundsReport ℚ :=
  match Check ix nx 2 1 0 with
  | Except.error r => Except.error r
  | Except.ok _ =>
    match Check iy ny 2 2 0 with
    | Except.error r => Except.error r
    | Except.ok _ => Except.ok (v.getD (ix * ny + iy).toNat 0)

/-- The element loop of the compound operators between two arrays
(`for(i=0; i < _size; i++) v[i] op= A(i)`, Array.h lines 318-337 and
882-891): the right operand is read through its checked access, whose report
parameters are `dim`/`m` (array1's `operator()`: dim 1, m 1; array2's
`operator()(int)`: dim 2, m 0). -/
def compoundLoop (f : ℚ → ℚ → ℚ) (other : List ℚ) (dim m : Nat) :
    Nat → List ℚ → Except ArrayFault (List ℚ)
  | _, [] => Except.ok []
  | i, x :: xs =>
    match Check (i : Int) other.length dim m 0 with
    | Except.error r => Except.error (ArrayFault.bounds r)
    | Except.ok _ =>
      match compoundLoop f other dim m (i + 1) xs with
      | Except.error e => Except.error e
      | Except.ok rest => Except.ok (f x (other.getD i 0) :: rest)

/-- Embedding of `array1::operator+=` / `-=` / `*=` against another array (Array.h lines
318-337): `CheckSize`, then the element loop; no shape comparison. -/
def a1_compound (f : ℚ → ℚ → ℚ) (A B : CArr1) : Except ArrayFault (List ℚ) :=
  (checkSize1 A).bind (fun _ => compoundLoop f B.v 1 1 0 A.v)

def a1_addAssign (A B : CArr1) : Except ArrayFault (List ℚ) :=
  a1_compound (fun x y => x + y) A B

def a1_subAssign (A B : CArr1) : Except ArrayFault (List ℚ) :=
  a1_compound (fun x y => x - y) A B

def a1_mulAssign (A B : CArr1) : Except ArrayFault (List ℚ) :=
  a1_compound (fun x y => x * y) A B

/-- A 2-D array: shape `(nx, ny)`, buffer and allocation bit (`array2`);
`_size = nx*ny` equals the buffer length for every dimensioned array. -/
structure CArr2 where
  nx : Nat
  ny : Nat
  v : List ℚ
  allocated : Bool
deriving DecidableEq

/-- Embedding of `array1::CheckSize` as inherited by `array2` (`_size = nx*ny`). -/
def checkSize2 (A : CArr2) : Except ArrayFault Unit :=
  if A.allocated = false ∧ A.nx * A.ny = 0 then Except.error ArrayFault.unallocated
  else Except.ok ()

/-- Embedding of `array2::operator+=` / `-=` against another array2 (Array.h lines
882-891): `CheckSize`, then the flat element loop with the right operand
read through `array2::operator()(int)` (dim 2, m 0); no shape comparison. -/
def a2_compound (f : ℚ → ℚ → ℚ) (A B : CArr2) : Except ArrayFault (List ℚ) :=
  (checkSize2 A).bind (fun _ => compoundLoop f B.v 2 0 0 A.v)

def a2_addAssign (A B : CArr2) : Except ArrayFault (List ℚ) :=
  a2_compound (fun x y => x + y) A B

def a2_subAssign (A B : CArr2) : Except ArrayFault (List ℚ) :=
  a2_compound (fun x y => x - y) A B

/-- The strided update `for(i=c_start; i < size; i += inc) v[i] = f v[i]`,
written as a walk along the buffer: the first argument counts the positions
left until the next updated one. -/
def stepUpd (f : ℚ → ℚ) (inc : Nat) : Nat → List ℚ → List ℚ
  | _, [] => []
  | 0, x :: xs => f x :: stepUpd f inc (inc - 1) xs
  | Nat.succ c, x :: xs => x :: stepUpd f inc c xs

/-- Embedding of `array2::operator+=(T a)` (Array.h lines 894-899): `CheckSize`, then
`inc = ny+1` and `for(i=0; i < _size; i += inc) v[i] += a`. -/
def a2_scalarAdd (A : CArr2) (a : ℚ) : Except ArrayFault (List ℚ) :=
  (checkSize2 A).bind (fun _ => Except.ok (stepUpd (fun x => x + a) (A.ny + 1) 0 A.v))

/-- Embedding of `array2::operator-=(T a)` (Array.h lines 900-905). -/
def a2_scalarSub (A : CArr2) (a : ℚ) : Except ArrayFault (List ℚ) :=
  (checkSize2 A).bind (fun _ => Except.ok (stepUpd (fun x => x - a) (A.ny + 1) 0 A.v))

/-- Embedding of `array1::operator+=(T a)` (Array.h lines 339-343): every element. -/
def a1_scalarAdd (A : CArr1) (a : ℚ) : Except ArrayFault (List ℚ) :=
  (checkSize1 A).bind (fun _ => Except.ok (A.v.map (fun x => x + a)))

/-- Embedding of `array1::operator-=(T a)` (Array.h lines 344-348): every element. -/
def a1_scalarSub (A : CArr1) (a : ℚ) : Except ArrayFault (List ℚ) :=
  (checkSize1 A).bind (fun _ => Except.ok (A.v.map (fun x => x - a)))

/-- Concrete arrays of differing shape (lengths 2 and 3) for the C7
counterexample. -/
def cSelf1 : CArr1 := ⟨[1, 2], true⟩

def cOther1 : CArr1 := ⟨[10, 20, 30], true⟩

/-- Concrete non-square `5 × 2` array for the C10 counterexample. -/
def cDiag : CArr2 := ⟨5, 2, [0, 0, 0, 0, 0, 0, 0, 0, 0, 0], true⟩

/-! ### Generic list helpers for the loops above -/

theorem foldl_add_eq_sum (f : hi → ℚ) (l : List hi) (acc : ℚ) :
    l.foldl (fun a h => a + f h) acc = acc + (l.map f).sum := by
  induction l generalizing acc with
  | nil => simp
  | cons x xs ih => simp [ih, add_assoc]

theorem getD_range_map {α : Type} (f : Nat → α) (m k : Nat) (d : α) (h : k < m) :
    (((List.range m).map f).getD k d) = f k := by
  rw [List.getD_eq_getElem?_getD, List.getElem?_map, List.getElem?_range h]
  rfl

theorem applyRow_eq_sum (input : Nat → ℚ) (row : List hi) :
    applyRow input row = (row.map (fun h => input h.index * h.weight)).sum := by
  simpa using foldl_add_eq_sum (fun h => input h.index * h.weight) row 0

/-- C1: for every target linear index `i` below the number of stencil rows,
the sequential apply operation produces at `i` exactly the sum over the
entries of row `i` of `input[h.index] * h.weight`, the accumulation having
started from `0` and no entry being skipped by a validity branch. -/
theorem apply_sets_weighted_sum (hm : List (List hi)) (input : Nat → ℚ)
    (i : Nat) (h : i < hm.length) :
    (applyHM input hm).getD i 0 =
      ((hm.getD i []).map (fun e => input e.index * e.weight)).sum := by
  rw [applyHM, List.getD_eq_getElem?_getD, List.getElem?_map]
  rw [List.getD_eq_getElem?_getD, List.getElem?_eq_getElem h]
  simp [applyRow_eq_sum]

/-- Witness for C1 at a concrete two-row map. -/
theorem apply_sets_weighted_sum_witness :
    (applyHM (fun k => (k : ℚ) + 1) [[⟨2, 3⟩, ⟨0, 5⟩], [⟨1, 7⟩]]).getD 0 0 =
      (([⟨2, 3⟩, ⟨0, 5⟩] : List hi).map (fun e => (fun k => (k : ℚ) + 1) e.index * e.weight)).sum := by
  exact apply_sets_weighted_sum [[⟨2, 3⟩, ⟨0, 5⟩], [⟨1, 7⟩]] (fun k => (k : ℚ) + 1) 0 (by decide)

/-- C2: a target whose mapped source cell fails the in-range test
`id < _xsize && jd < _ysize` (RotationMap.cpp line 82) keeps the all-zero
sentinel row, and the apply operation produces `0` at that target for every
input field. -/
theorem out_of_range_target_zero (xsize ysize n idv jdv : Nat) (xiq xip : ℚ)
    (input : Nat → ℚ) (h : ¬(idv < xsize ∧ jdv < ysize)) :
    targetRow xsize ysize n idv jdv xiq xip = List.replicate (n * n) ⟨0, 0⟩ ∧
      applyRow input (targetRow xsize ysize n idv jdv xiq xip) = 0 := by
  have hrow : targetRow xsize ysize n idv jdv xiq xip = List.replicate (n * n) ⟨0, 0⟩ := by
    simp [targetRow, h]
  refine ⟨hrow, ?_⟩
  rw [hrow, applyRow_eq_sum]
  simp

/-- Witness for C2: a mapped cell at `id = 5` on a `2 × 2` grid. -/
theorem out_of_range_target_zero_witness :
    targetRow 2 2 2 5 0 0 0 = List.replicate 4 ⟨0, 0⟩ ∧
      applyRow (fun _ => 3) (targetRow 2 2 2 5 0 0 0) = 0 :=
  out_of_range_target_zero 2 2 2 5 0 0 0 (fun _ => 3) (by decide)

/-! ### Lagrange interpolation basis (specification-side definition for C4) -/

/-- C4: for every interpolation order in `{1,2,3,4}` and fractional offset
`x ∈ [0,1)`, the 1-D kernel weight vector computed by the map builder equals
the Lagrange polynomial-interpolation basis on the kernel's centered nodes. -/
theorem kernel_weights_are_lagrange (n : Nat) (x : ℚ) (j : Nat)
    (hn : n = 1 ∨ n = 2 ∨ n = 3 ∨ n = 4)
    (hx0 : 0 ≤ x) (hx1 : x < 1) (hj : j < n) :
    (icoeff n x).getD j 0 = lagrangeBasis (kernelNodes n) j x := by
  rcases hn with rfl | rfl | rfl | rfl <;> interval_cases j <;>
    · simp only [icoeff, kernelNodes, lagrangeBasis, ofs, List.range_succ,
        List.range_zero, List.map_nil, List.map_cons, List.map_append,
        List.nil_append, List.cons_append, List.eraseIdx, List.prod_cons,
        List.prod_nil, List.getD_cons_zero, List.getD_cons_succ]
      norm_num
      try ring

/-- Witness for C4 at order 4, node 2, offset `x = 1/3`. -/
theorem kernel_weights_are_lagrange_witness :
    (icoeff 4 (1/3)).getD 2 0 = lagrangeBasis (kernelNodes 4) 2 (1/3) :=
  kernel_weights_are_lagrange 4 (1/3) 2 (by norm_num) (by norm_num) (by norm_num)
    (by norm_num)

/-! ### Partition of unity (C9) -/

theorem icoeff_sum (n : Nat) (x : ℚ) (hn : n = 1 ∨ n = 2 ∨ n = 3 ∨ n = 4) :
    (icoeff n x).sum = 1 := by
  rcases hn with rfl | rfl | rfl | rfl <;> simp [icoeff] <;> ring

theorem icoeff_length (n : Nat) (x : ℚ) (hn : n = 1 ∨ n = 2 ∨ n = 3 ∨ n = 4) :
    (icoeff n x).length = n := by
  rcases hn with rfl | rfl | rfl | rfl <;> rfl

theorem sum_map_range_eq (f : Nat → ℚ) (n : Nat) :
    ((List.range n).map f).sum = ∑ k in Finset.range n, f k := by
  induction n with
  | zero => simp
  | succ m ih => simp [List.range_succ, Finset.sum_range_succ, ih]

theorem range_map_getD (l : List ℚ) :
    (List.range l.length).map (fun a => l.getD a 0) = l := by
  apply List.ext_getElem (by simp)
  intro i h1 h2
  simp [List.getD_eq_getElem?_getD, List.getElem?_eq_getElem h2]

theorem sum_range_mul_split (g h : Nat → ℚ) (n : Nat) (hn : 0 < n) (m : Nat) :
    (∑ k in Finset.range (m * n), g (k / n) * h (k % n)) =
      (∑ i in Finset.range m, g i) * (∑ j in Finset.range n, h j) := by
  induction m with
  | zero => simp
  | succ m ih =>
    have hsplit : Finset.range (Nat.succ m * n) =
        Finset.Ico 0 (m * n) ∪ Finset.Ico (m * n) (m * n + n) := by
      rw [Nat.succ_mul, Finset.range_eq_Ico,
        Finset.Ico_union_Ico_eq_Ico (Nat.zero_le _) (Nat.le_add_right _ _)]
    rw [hsplit, Finset.sum_union (by
      apply Finset.Ico_disjoint_Ico_consecutive)]
    rw [← Finset.range_eq_Ico, ih]
    have hblock : (∑ k in Finset.Ico (m * n) (m * n + n), g (k / n) * h (k % n)) =
        g m * ∑ j in Finset.range n, h j := by
      have harith : ∀ k ∈ Finset.range n,
          g ((m * n + k) / n) * h ((m * n + k) % n) = g m * h k := by
        intro k hk
        have hkn : k < n := Finset.mem_range.mp hk
        have hdiv : (m * n + k) / n = m := by
          rw [Nat.add_comm, Nat.mul_comm, Nat.add_mul_div_left _ _ hn,
            Nat.div_eq_of_lt hkn]
          omega
        have hmod : (m * n + k) % n = k := by
          rw [Nat.add_comm, Nat.mul_comm, Nat.add_mul_mod_self_left,
            Nat.mod_eq_of_lt hkn]
        rw [hdiv, hmod]
      have hre : (m * n) + n = (m * n) + n := rfl
      rw [show Finset.Ico (m * n) (m * n + n) = Finset.map
            ⟨fun k => m * n + k, fun a b hab => Nat.add_left_cancel hab⟩ (Finset.range n) by
          ext y
          simp [Finset.mem_map, Finset.mem_Ico, Finset.mem_range]
          constructor
          · intro hy; exact ⟨y - m * n, by omega, by omega⟩
          · rintro ⟨a, ha, rfl⟩; omega]
      rw [Finset.sum_map]
      simp only [Function.Embedding.coeFn_mk]
      rw [Finset.sum_congr rfl harith, ← Finset.mul_sum]
    rw [hblock, Finset.sum_range_succ]
    ring

/-- C9: for every interpolation order in `{1,2,3,4}` the 1-D kernel weight
vector sums to exactly `1` in each dimension, and every stencil row whose
kernel cells are all in-bounds has total weight exactly `1`. -/
theorem row_weights_sum_to_one (n xsize ysize idv jdv : Nat) (xiq xip : ℚ)
    (hn : n = 1 ∨ n = 2 ∨ n = 3 ∨ n = 4)
    (hbound : ∀ a b, a < n → b < n → upos idv a n < xsize ∧ upos jdv b n < ysize) :
    (icoeff n xiq).sum = 1 ∧ (icoeff n xip).sum = 1 ∧
      ((buildRow xsize ysize n idv jdv xiq xip).map hi.weight).sum = 1 := by
  have hnpos : 0 < n := by rcases hn with rfl | rfl | rfl | rfl <;> norm_num
  refine ⟨icoeff_sum n xiq hn, icoeff_sum n xip hn, ?_⟩
  rw [buildRow, List.map_map, sum_map_range_eq]
  have hterm : ∀ k ∈ Finset.range (n * n),
      (hi.weight ∘ fun k =>
          buildEntry xsize ysize n idv jdv (hmcList n xiq xip) (k / n) (k % n)) k =
        (icoeff n xiq).getD (k / n) 0 * (icoeff n xip).getD (k % n) 0 := by
    intro k hk
    have hkn : k < n * n := Finset.mem_range.mp hk
    have hdiv : k / n < n := Nat.div_lt_of_lt_mul (by omega)
    have hmod : k % n < n := Nat.mod_lt _ hnpos
    have hin := hbound (k / n) (k % n) hdiv hmod
    simp only [Function.comp_apply, buildEntry, if_pos hin]
    have hidx : k / n * n + k % n = k := Nat.div_add_mod' k n
    rw [hidx, hmcList, getD_range_map _ _ _ _ hkn]
  have hsum : ∀ y : ℚ, (∑ i in Finset.range n, (icoeff n y).getD i 0) = 1 := by
    intro y
    have hl := icoeff_length n y hn
    calc (∑ i in Finset.range n, (icoeff n y).getD i 0)
        = ((List.range (icoeff n y).length).map (fun a => (icoeff n y).getD a 0)).sum := by
          rw [sum_map_range_eq, hl]
      _ = (icoeff n y).sum := by rw [range_map_getD]
      _ = 1 := icoeff_sum n y hn
  rw [Finset.sum_congr rfl hterm,
    sum_range_mul_split (fun a => (icoeff n xiq).getD a 0)
      (fun b => (icoeff n xip).getD b 0) n hnpos n]
  rw [hsum xiq, hsum xip]
  norm_num

/-- Witness for C9: order 2 row at cell `(1,1)` of a `4 × 4` grid. -/
theorem row_weights_sum_to_one_witness :
    (icoeff 2 (1/3)).sum = 1 ∧ (icoeff 2 (1/4)).sum = 1 ∧
      ((buildRow 4 4 2 1 1 (1/3) (1/4)).map hi.weight).sum = 1 :=
  row_weights_sum_to_one 2 4 4 1 1 (1/3) (1/4) (by norm_num)
    (by intro a b ha hb; interval_cases a <;> interval_cases b <;> decide)

/-! ### The builder entry formula (C6) -/

/-- The `unsigned int` computation `id + i1 - (n-1)/2` either has no borrow
(and equals the natural subtraction) or wraps to a value at least `size`
whenever `size + n` fits the 32-bit range. -/
theorem upos_cases (idv a n size : Nat) (ha : a < n) (hid : idv < size)
    (hs : size + n ≤ u32) :
    (ofs n ≤ idv + a ∧ upos idv a n = idv + a - ofs n) ∨
    (idv + a < ofs n ∧ size ≤ upos idv a n) := by
  have hofs : ofs n ≤ n - 1 := by unfold ofs; omega
  unfold upos
  by_cases hc : ofs n ≤ idv + a
  · left
    refine ⟨hc, ?_⟩
    have h2 : idv + a - ofs n < u32 := by omega
    have h1 : idv + a + u32 - ofs n = (idv + a - ofs n) + u32 := by omega
    rw [h1, Nat.add_mod_right, Nat.mod_eq_of_lt h2]
  · right
    refine ⟨by omega, ?_⟩
    have h1 : idv + a + u32 - ofs n < u32 := by omega
    rw [Nat.mod_eq_of_lt h1]
    omega

/-- C6: for an in-range mapped source cell and every kernel offset pair
`(a, b)`, row position `a*n+b` holds the entry
`{flattenedIndex(id + a - (n-1)/2, jd + b - (n-1)/2), icq[a]*icp[b]}` when the
absolute cell (as a signed integer) is in-bounds, and the zero sentinel
`{0,0}` otherwise.  The machine-range side conditions say that the grid fits
the 32-bit index arithmetic. -/
theorem builder_entry_formula (xsize ysize n idv jdv a b : Nat) (xiq xip : ℚ)
    (hid : idv < xsize) (hjd : jdv < ysize) (ha : a < n) (hb : b < n)
    (hxs : xsize + n ≤ u32) (hys : ysize + n ≤ u32) (hflat : xsize * ysize ≤ u32) :
    (buildRow xsize ysize n idv jdv xiq xip).getD (a * n + b) ⟨0, 0⟩ =
      if 0 ≤ (idv : ℤ) + a - ofs n ∧ (idv : ℤ) + a - ofs n < xsize ∧
          0 ≤ (jdv : ℤ) + b - ofs n ∧ (jdv : ℤ) + b - ofs n < ysize then
        ⟨(((idv : ℤ) + a - ofs n) * ysize + ((jdv : ℤ) + b - ofs n)).toNat,
          (icoeff n xiq).getD a 0 * (icoeff n xip).getD b 0⟩
      else ⟨0, 0⟩ := by
  have hnpos : 0 < n := by omega
  have hk : a * n + b < n * n := by
    calc a * n + b < a * n + n := by omega
      _ = (a + 1) * n := by ring
      _ ≤ n * n := Nat.mul_le_mul_right n (by omega)
  have hdiv : (a * n + b) / n = a := by
    rw [Nat.add_comm, Nat.mul_comm, Nat.add_mul_div_left _ _ hnpos,
      Nat.div_eq_of_lt hb]
    omega
  have hmod : (a * n + b) % n = b := by
    rw [Nat.add_comm, Nat.mul_comm, Nat.add_mul_mod_self_left, Nat.mod_eq_of_lt hb]
  rw [buildRow, getD_range_map _ _ _ _ hk, hdiv, hmod]
  rw [buildEntry, hmcList, getD_range_map _ _ _ _ hk, hdiv, hmod]
  rcases upos_cases idv a n xsize ha hid hxs with ⟨hcq, hq⟩ | ⟨hcq, hq⟩ <;>
    rcases upos_cases jdv b n ysize hb hjd hys with ⟨hcp, hp⟩ | ⟨hcp, hp⟩
  · rw [hq, hp]
    by_cases hin : idv + a - ofs n < xsize ∧ jdv + b - ofs n < ysize
    · rw [if_pos hin, if_pos (by omega)]
      have hi0 : (idv + a - ofs n) * ysize + (jdv + b - ofs n) < u32 := by
        calc (idv + a - ofs n) * ysize + (jdv + b - ofs n)
            < (idv + a - ofs n) * ysize + ysize := by omega
          _ = (idv + a - ofs n + 1) * ysize := by ring
          _ ≤ xsize * ysize := Nat.mul_le_mul_right ysize (by omega)
          _ ≤ u32 := hflat
      rw [Nat.mod_eq_of_lt hi0]
      have hzq : (idv : ℤ) + a - ofs n = ((idv + a - ofs n : ℕ) : ℤ) := by omega
      have hzp : (jdv : ℤ) + b - ofs n = ((jdv + b - ofs n : ℕ) : ℤ) := by omega
      rw [hzq, hzp, ← Nat.cast_mul, ← Nat.cast_add, Int.toNat_natCast]
    · rw [if_neg hin, if_neg (by omega)]
  · rw [if_neg (by omega), if_neg (by omega)]
  · rw [if_neg (by omega), if_neg (by omega)]
  · rw [if_neg (by omega), if_neg (by omega)]

/-- Witness for C6: order 2, cell `(0,0)` of a `3 × 3` grid, kernel offset
`(1,1)`. -/
theorem builder_entry_formula_witness :
    (buildRow 3 3 2 0 0 (1/2) (1/2)).getD (1 * 2 + 1) ⟨0, 0⟩ =
      if 0 ≤ (0 : ℤ) + 1 - ofs 2 ∧ (0 : ℤ) + 1 - ofs 2 < 3 ∧
          0 ≤ (0 : ℤ) + 1 - ofs 2 ∧ (0 : ℤ) + 1 - ofs 2 < 3 then
        ⟨(((0 : ℤ) + 1 - ofs 2) * 3 + ((0 : ℤ) + 1 - ofs 2)).toNat,
          (icoeff 2 (1/2)).getD 1 0 * (icoeff 2 (1/2)).getD 1 0⟩
      else ⟨0, 0⟩ :=
  builder_entry_formula 3 3 2 0 0 1 1 (1/2) (1/2) (by norm_num) (by norm_num)
    (by norm_num) (by norm_num) (by norm_num [u32]) (by norm_num [u32])
    (by norm_num [u32])

/-! ### The rotation coordinate transform and the identity case (C5) -/

theorem icoeff_zero_getD (n j : Nat) (hn : n = 1 ∨ n = 2 ∨ n = 3 ∨ n = 4)
    (hj : j < n) :
    (icoeff n 0).getD j 0 = if j = ofs n then 1 else 0 := by
  rcases hn with rfl | rfl | rfl | rfl <;> interval_cases j <;>
    norm_num [icoeff, ofs]

/-- With both fractional offsets `0`, the assembled row gives back exactly the
input value at the mapped cell itself. -/
theorem applyRow_buildRow_center (xsize ysize n q p : Nat) (input : Nat → ℚ)
    (hn : n = 1 ∨ n = 2 ∨ n = 3 ∨ n = 4) (hq : q < xsize) (hp : p < ysize)
    (hflat : xsize * ysize ≤ u32) :
    applyRow input (buildRow xsize ysize n q p 0 0) = input (q * ysize + p) := by
  have hnpos : 0 < n := by rcases hn with rfl | rfl | rfl | rfl <;> norm_num
  have hofs : ofs n < n := by unfold ofs; omega
  have hxu : xsize ≤ u32 := by
    calc xsize = xsize * 1 := by ring
      _ ≤ xsize * ysize := Nat.mul_le_mul_left xsize (by omega)
      _ ≤ u32 := hflat
  have hyu : ysize ≤ u32 := by
    calc ysize = 1 * ysize := by ring
      _ ≤ xsize * ysize := Nat.mul_le_mul_right ysize (by omega)
      _ ≤ u32 := hflat
  have hupq : upos q (ofs n) n = q := by
    unfold upos
    have h1 : q + ofs n + u32 - ofs n = q + u32 := by omega
    rw [h1, Nat.add_mod_right, Nat.mod_eq_of_lt (by omega)]
  have hupp : upos p (ofs n) n = p := by
    unfold upos
    have h1 : p + ofs n + u32 - ofs n = p + u32 := by omega
    rw [h1, Nat.add_mod_right, Nat.mod_eq_of_lt (by omega)]
  have hqp : q * ysize + p < u32 := by
    calc q * ysize + p < q * ysize + ysize := by omega
      _ = (q + 1) * ysize := by ring
      _ ≤ xsize * ysize := Nat.mul_le_mul_right ysize (by omega)
      _ ≤ u32 := hflat
  have hk0 : ofs n * n + ofs n < n * n := by
    calc ofs n * n + ofs n < ofs n * n + n := by omega
      _ = (ofs n + 1) * n := by ring
      _ ≤ n * n := Nat.mul_le_mul_right n (by omega)
  have hdm : ∀ a b : Nat, a < n → b < n → (a * n + b) / n = a ∧ (a * n + b) % n = b := by
    intro a b ha hb
    constructor
    · rw [Nat.add_comm, Nat.mul_comm, Nat.add_mul_div_left _ _ hnpos,
        Nat.div_eq_of_lt hb]
      omega
    · rw [Nat.add_comm, Nat.mul_comm, Nat.add_mul_mod_self_left, Nat.mod_eq_of_lt hb]
  rw [applyRow_eq_sum, buildRow, List.map_map, sum_map_range_eq]
  rw [Finset.sum_eq_single (ofs n * n + ofs n)]
  · obtain ⟨hd0, hm0⟩ := hdm (ofs n) (ofs n) hofs hofs
    simp only [Function.comp_apply, buildEntry, hd0, hm0, hupq, hupp]
    rw [if_pos ⟨hq, hp⟩]
    simp only
    rw [hmcList, getD_range_map _ _ _ _ hk0, hd0, hm0,
      icoeff_zero_getD n (ofs n) hn hofs, if_pos rfl, Nat.mod_eq_of_lt hqp]
    ring
  · intro k hk hne
    have hkn : k < n * n := Finset.mem_range.mp hk
    have hdiv : k / n < n := Nat.div_lt_of_lt_mul (by omega)
    have hmod : k % n < n := Nat.mod_lt _ hnpos
    simp only [Function.comp_apply, buildEntry]
    by_cases hin : upos q (k / n) n < xsize ∧ upos p (k % n) n < ysize
    · rw [if_pos hin]
      simp only
      rw [hmcList, Nat.div_add_mod' k n, getD_range_map _ _ _ _ hkn]
      have hcase : k / n ≠ ofs n ∨ k % n ≠ ofs n := by
        by_contra habs
        push_neg at habs
        obtain ⟨h1, h2⟩ := habs
        have := Nat.div_add_mod' k n
        rw [h1, h2] at this
        exact hne this.symm
      rcases hcase with hc | hc
      · rw [icoeff_zero_getD n (k / n) hn hdiv, if_neg hc]
        ring
      · rw [icoeff_zero_getD n (k % n) hn hmod, if_neg hc]
        ring
    · rw [if_neg hin]
      simp
  · intro habs
    exact absurd (Finset.mem_range.mpr hk0) habs

/-- C5: for the identity coordinate transform (rotation angle `0`, ROTATION_TYPE
1 convention, so `cos_dt = 1` and `sin_dt = 0`), the fractional offsets are
exactly `0`, the kernel weight vector degenerates to weight `1` at the
matching cell and `0` elsewhere, and applying the built map reproduces the
input field exactly (hence in particular within floating rounding) for every
order in `{1,2,3,4}`. -/
theorem identity_rotation_reproduces (xsize ysize n : Nat) (input : Nat → ℚ)
    (i : Nat) (hn : n = 1 ∨ n = 2 ∨ n = 3 ∨ n = 4) (hi : i < xsize * ysize)
    (hflat : xsize * ysize ≤ u32) :
    coordFrac (rotCoordQ xsize ysize 1 0 (i / ysize) (i % ysize)) = 0 ∧
    coordFrac (rotCoordP xsize ysize 1 0 (i / ysize) (i % ysize)) = 0 ∧
    (∀ j, j < n → (icoeff n 0).getD j 0 = if j = ofs n then 1 else 0) ∧
    (applyHM input (rotationMap xsize ysize n 1 0)).getD i 0 = input i := by
  have hy : 0 < ysize := by
    rcases Nat.eq_zero_or_pos ysize with h | h
    · subst h; simp at hi
    · exact h
  have hq : i / ysize < xsize := by
    rw [Nat.div_lt_iff_lt_mul hy]
    omega
  have hp : i % ysize < ysize := Nat.mod_lt _ hy
  have hx : 0 < xsize := Nat.lt_of_le_of_lt (Nat.zero_le _) hq
  have hxu : xsize ≤ u32 := by
    calc xsize = xsize * 1 := by ring
      _ ≤ xsize * ysize := Nat.mul_le_mul_left xsize hy
      _ ≤ u32 := hflat
  have hyu : ysize ≤ u32 := by
    calc ysize = 1 * ysize := by ring
      _ ≤ xsize * ysize := Nat.mul_le_mul_right ysize hx
      _ ≤ u32 := hflat
  have hcq : rotCoordQ xsize ysize 1 0 (i / ysize) (i % ysize) =
      ((i / ysize : ℕ) : ℚ) := by
    rw [rotCoordQ]; ring
  have hcp : rotCoordP xsize ysize 1 0 (i / ysize) (i % ysize) =
      ((i % ysize : ℕ) : ℚ) := by
    rw [rotCoordP]; ring
  have hipart : ∀ m : Nat, coordIntPart ((m : ℕ) : ℚ) = (m : ℤ) := by
    intro m
    rw [coordIntPart, if_pos (by positivity)]
    exact Int.floor_natCast m
  have hfrac : ∀ m : Nat, coordFrac ((m : ℕ) : ℚ) = 0 := by
    intro m
    rw [coordFrac, hipart]
    push_cast
    ring
  have hcast : ∀ m : Nat, m < u32 → castUInt (m : ℤ) = m := by
    intro m hm
    rw [castUInt, Int.emod_eq_of_lt (by positivity) (by exact_mod_cast hm)]
    exact Int.toNat_natCast m
  refine ⟨by rw [hcq]; exact hfrac _, by rw [hcp]; exact hfrac _,
    fun j hj => icoeff_zero_getD n j hn hj, ?_⟩
  rw [applyHM, List.getD_eq_getElem?_getD, List.getElem?_map, rotationMap,
    List.getElem?_map, List.getElem?_range hi]
  simp only [Option.map_some', Option.getD_some]
  rw [rotTargetRow, hcq, hcp]
  rw [hipart, hipart, hfrac, hfrac]
  rw [hcast _ (by omega), hcast _ (by omega)]
  rw [targetRow, if_pos ⟨hq, hp⟩]
  rw [applyRow_buildRow_center xsize ysize n _ _ input hn hq hp hflat]
  rw [Nat.div_add_mod' i ysize]

/-- Witness for C5 on a `2 × 2` grid with order 2. -/
theorem identity_rotation_reproduces_witness :
    coordFrac (rotCoordQ 2 2 1 0 (3 / 2) (3 % 2)) = 0 ∧
    coordFrac (rotCoordP 2 2 1 0 (3 / 2) (3 % 2)) = 0 ∧
    (∀ j, j < 2 → (icoeff 2 0).getD j 0 = if j = ofs 2 then 1 else 0) ∧
    (applyHM (fun k => (k : ℚ) + 7) (rotationMap 2 2 2 1 0)).getD 3 0 =
      (fun k => (k : ℚ) + 7) 3 :=
  identity_rotation_reproduces 2 2 2 (fun k => (k : ℚ) + 7) 3 (by norm_num)
    (by norm_num) (by norm_num [u32])

/-- C3 counterexample: with saturation enabled, the output at this concrete
row and input is `10`, which lies outside the `[min, max] = [0, 1]` of the
input samples at the positions `{order, order+1, 2*order, 2*order+1}`
= `{4, 5, 8, 9}` named by the claim: the code reads positions
`{5, 6, 9, 10}` instead. -/
theorem saturation_ring_positions_cex :
    ¬(min (min (min (satCexInput ((satCexRow.getD 4 ⟨0, 0⟩).index))
            (satCexInput ((satCexRow.getD 5 ⟨0, 0⟩).index)))
          (satCexInput ((satCexRow.getD 8 ⟨0, 0⟩).index)))
        (satCexInput ((satCexRow.getD 9 ⟨0, 0⟩).index)) ≤
        applySatRow 4 satCexInput satCexRow ∧
      applySatRow 4 satCexInput satCexRow ≤
        max (max (max (satCexInput ((satCexRow.getD 4 ⟨0, 0⟩).index))
              (satCexInput ((satCexRow.getD 5 ⟨0, 0⟩).index)))
            (satCexInput ((satCexRow.getD 8 ⟨0, 0⟩).index)))
          (satCexInput ((satCexRow.getD 9 ⟨0, 0⟩).index))) := by
  norm_num [satCexRow, satCexInput, applySatRow, applyRow, satSamples, satIdx,
    satCeil, satFlor, List.getD, min_def, max_def]

/-- C3 (amended): when saturation is enabled the output at every target lies
within the `[min, max]` of the input samples at stencil-row positions
`{order+1, order+2, 2*order+1, 2*order+2}` (kernel offsets `x, y ∈ {1, 2}`,
the nearest 2-by-2 block), not `{order, order+1, 2*order, 2*order+1}`. -/
theorem saturation_clamps_to_ring (n : Nat) (input : Nat → ℚ) (row : List hi) :
    min (min (min (input ((row.getD (n + 1) ⟨0, 0⟩).index))
            (input ((row.getD (n + 2) ⟨0, 0⟩).index)))
          (input ((row.getD (2 * n + 1) ⟨0, 0⟩).index)))
        (input ((row.getD (2 * n + 2) ⟨0, 0⟩).index)) ≤
      applySatRow n input row ∧
    applySatRow n input row ≤
      max (max (max (input ((row.getD (n + 1) ⟨0, 0⟩).index))
            (input ((row.getD (n + 2) ⟨0, 0⟩).index)))
          (input ((row.getD (2 * n + 1) ⟨0, 0⟩).index)))
        (input ((row.getD (2 * n + 2) ⟨0, 0⟩).index)) := by
  simp only [applySatRow, satSamples, satIdx, satCeil, satFlor, one_mul,
    List.map_cons, List.map_nil, List.headD_cons, List.foldl_cons,
    List.foldl_nil, max_self, min_self]
  constructor
  · exact le_max_right _ _
  · refine max_le (le_trans (min_le_left _ _) le_rfl) ?_
    refine le_trans (le_trans (min_le_left _ _)
      (le_trans (min_le_left _ _) (min_le_left _ _))) ?_
    exact le_trans (le_trans (le_max_left _ _) (le_max_left _ _)) (le_max_left _ _)

/-! ### Compound operators between arrays (C7) -/

theorem compoundLoop_ok (f : ℚ → ℚ → ℚ) (other : List ℚ) (dim m : Nat) :
    ∀ (sv : List ℚ) (i : Nat), i + sv.length ≤ other.length →
      compoundLoop f other dim m i sv =
        Except.ok ((List.range sv.length).map
          (fun j => f (sv.getD j 0) (other.getD (i + j) 0))) := by
  intro sv
  induction sv with
  | nil => intro i _; simp [compoundLoop]
  | cons x xs ih =>
    intro i hlen
    simp only [List.length_cons] at hlen
    have hok : Check (i : Int) other.length dim m 0 = Except.ok () := by
      rw [Check, if_neg (by omega)]
    rw [compoundLoop, hok, ih (i + 1) (by omega)]
    simp only [List.length_cons, List.range_succ_eq_map, List.map_cons,
      List.map_map, Function.comp_def, List.getD_cons_zero, List.getD_cons_succ,
      Nat.add_zero]
    congr 2
    apply List.map_congr_left
    intro j _
    congr 2
    omega

theorem compoundLoop_err (f : ℚ → ℚ → ℚ) (other : List ℚ) (dim m : Nat) :
    ∀ (sv : List ℚ) (i : Nat), i ≤ other.length → other.length < i + sv.length →
      compoundLoop f other dim m i sv =
        Except.error (ArrayFault.bounds
          ⟨dim, m, (other.length : Int),
            if other.length = 0 then BoundTail.emptyArr
            else BoundTail.above ((other.length : Int) - 1)⟩) := by
  intro sv
  induction sv with
  | nil => intro i h1 h2; simp at h2; omega
  | cons x xs ih =>
    intro i h1 h2
    simp only [List.length_cons] at h2
    by_cases hi : i < other.length
    · have hok : Check (i : Int) other.length dim m 0 = Except.ok () := by
        rw [Check, if_neg (by omega)]
      rw [compoundLoop, hok, ih (i + 1) (by omega) (by omega)]
    · have hieq : i = other.length := by omega
      have herr : Check (i : Int) other.length dim m 0 = Except.error
          ⟨dim, m, (other.length : Int),
            if other.length = 0 then BoundTail.emptyArr
            else BoundTail.above ((other.length : Int) - 1)⟩ := by
        rw [Check, if_pos (by omega)]
        subst hieq
        congr 1
        simp only [BoundsReport.mk.injEq, true_and]
        constructor
        · omega
        · by_cases h0 : other.length = 0
          · simp [h0]
          · rw [if_neg (by exact_mod_cast h0), if_neg (by omega), if_neg h0]
            norm_num
      rw [compoundLoop, herr]

/-- C7 counterexample: `+=` between arrays of differing shapes (lengths 2 and
3) performs the element-wise operation over the left operand's elements and
reports no fault at all. -/
theorem compound_shape_mismatch_cex :
    cSelf1.v.length ≠ cOther1.v.length ∧
      a1_addAssign cSelf1 cOther1 = Except.ok [11, 22] := by
  constructor
  · decide
  · norm_num [a1_addAssign, a1_compound, cSelf1, cOther1, checkSize1,
      compoundLoop, Check, Except.bind]

/-- C7 (amended): the compound operators `+=`, `-=`, `*=` between two arrays
never compare declared shapes.  With checks active, when the right operand is
flat-shorter the operation aborts with a bounds fault raised by the right
operand's checked element access (attempted index = the right operand's
size), not a shape-mismatch report; when the right operand has at least as
many elements, the operation proceeds element-wise over the left operand's
elements even though the shapes differ.  The same holds for 2-D arrays on
flattened indices. -/
theorem compound_ops_check_no_shape (f : ℚ → ℚ → ℚ) (A B : CArr1) (A2 B2 : CArr2)
    (hA : A.allocated = true) (hA2 : A2.allocated = true) :
    (B.v.length < A.v.length →
      a1_compound f A B = Except.error (ArrayFault.bounds
        ⟨1, 1, (B.v.length : Int),
          if B.v.length = 0 then BoundTail.emptyArr
          else BoundTail.above ((B.v.length : Int) - 1)⟩)) ∧
    (A.v.length ≤ B.v.length →
      a1_compound f A B = Except.ok ((List.range A.v.length).map
        (fun i => f (A.v.getD i 0) (B.v.getD i 0)))) ∧
    (A2.v.length ≤ B2.v.length →
      a2_compound f A2 B2 = Except.ok ((List.range A2.v.length).map
        (fun i => f (A2.v.getD i 0) (B2.v.getD i 0)))) := by
  have hcs1 : checkSize1 A = Except.ok () := by
    rw [checkSize1, if_neg (by simp [hA])]
  have hcs2 : checkSize2 A2 = Except.ok () := by
    rw [checkSize2, if_neg (by simp [hA2])]
  refine ⟨fun hlt => ?_, fun hle => ?_, fun hle2 => ?_⟩
  · rw [a1_compound, hcs1, Except.bind,
      compoundLoop_err f B.v 1 1 A.v 0 (by omega) (by omega)]
  · rw [a1_compound, hcs1, Except.bind,
      compoundLoop_ok f B.v 1 1 A.v 0 (by omega)]
    simp
  · rw [a2_compound, hcs2, Except.bind,
      compoundLoop_ok f B2.v 2 0 A2.v 0 (by omega)]
    simp

/-- Witness for the amended C7: `1 × 2` against `1 × 3` arrays, and `2 × 3`
against `3 × 2` arrays of equal flat size. -/
theorem compound_ops_check_no_shape_witness :
    (((⟨[10, 20, 30], true⟩ : CArr1).v.length < (cSelf1 : CArr1).v.length →
      a1_compound (fun x y => x + y) cSelf1 ⟨[10, 20, 30], true⟩ =
        Except.error (ArrayFault.bounds
          ⟨1, 1, ((3 : Nat) : Int),
            if (3 : Nat) = 0 then BoundTail.emptyArr
            else BoundTail.above (((3 : Nat) : Int) - 1)⟩)) ∧
    (cSelf1.v.length ≤ (⟨[10, 20, 30], true⟩ : CArr1).v.length →
      a1_compound (fun x y => x + y) cSelf1 ⟨[10, 20, 30], true⟩ =
        Except.ok ((List.range cSelf1.v.length).map
          (fun i => (fun x y => x + y) (cSelf1.v.getD i 0)
            (([10, 20, 30] : List ℚ).getD i 0)))) ∧
    ((⟨2, 3, [1, 2, 3, 4, 5, 6], true⟩ : CArr2).v.length ≤
        (⟨3, 2, [9, 8, 7, 6, 5, 4], true⟩ : CArr2).v.length →
      a2_compound (fun x y => x + y) ⟨2, 3, [1, 2, 3, 4, 5, 6], true⟩
          ⟨3, 2, [9, 8, 7, 6, 5, 4], true⟩ =
        Except.ok ((List.range (6 : Nat)).map
          (fun i => (fun x y => x + y) (([1, 2, 3, 4, 5, 6] : List ℚ).getD i 0)
            (([9, 8, 7, 6, 5, 4] : List ℚ).getD i 0))))) :=
  compound_ops_check_no_shape (fun x y => x + y) cSelf1 ⟨[10, 20, 30], true⟩
    ⟨2, 3, [1, 2, 3, 4, 5, 6], true⟩ ⟨3, 2, [9, 8, 7, 6, 5, 4], true⟩ rfl rfl

/-! ### Bounds faults on element access (C8) -/

/-- C8: with checks active, any index outside the declared bound of its
dimension — `[0, n)`, shifted to `[ox, ox+n)` for the offset-indexed
variant — makes element access return a fault instead of an element (never a
clamped or wrapped read), and the report carries the dimension label, which
index of the access, the attempted value, and the violated declared bound.
Shown for `array1::operator()`, for the offset variant `Array1::operator[]`,
and for both indices of `array2::operator()(int,int)`. -/
theorem bounds_fault_reported (A : CArr1) (i0 : Int) (v : List ℚ) (ox ix : Int)
    (nx ny : Nat) (w : List ℚ) (jx jy iy : Int)
    (hA : ¬(0 ≤ i0 ∧ i0 < (A.v.length : Int))) (hAn : A.v.length ≠ 0)
    (h1 : ¬(ox ≤ ix ∧ ix < ox + (v.length : Int))) (hvn : v.length ≠ 0)
    (h2 : ¬(0 ≤ jx ∧ jx < (nx : Int))) (hnx : nx ≠ 0)
    (h3 : 0 ≤ jy ∧ jy < (nx : Int))
    (h4 : ¬(0 ≤ iy ∧ iy < (ny : Int))) (hny : ny ≠ 0) :
    a1_call A i0 = Except.error
      ⟨1, 1, i0, if i0 < 0 then BoundTail.below 0
                 else BoundTail.above ((A.v.length : Int) - 1)⟩ ∧
    A1_sub v ox ix = Except.error
      ⟨1, 1, ix, if ix < ox then BoundTail.below ox
                 else BoundTail.above (ox + (v.length : Int) - 1)⟩ ∧
    a2_call2 nx ny w jx iy = Except.error
      ⟨2, 1, jx, if jx < 0 then BoundTail.below 0
                 else BoundTail.above ((nx : Int) - 1)⟩ ∧
    a2_call2 nx ny w jy iy = Except.error
      ⟨2, 2, iy, if iy < 0 then BoundTail.below 0
                 else BoundTail.above ((ny : Int) - 1)⟩ := by
  refine ⟨?_, ?_, ?_, ?_⟩
  · have hc : Check i0 A.v.length 1 1 0 = Except.error
        ⟨1, 1, i0, if i0 < 0 then BoundTail.below 0
                   else BoundTail.above ((A.v.length : Int) - 1)⟩ := by
      rw [Check, if_pos (by omega)]
      congr 1
      simp only [BoundsReport.mk.injEq, true_and]
      refine ⟨by omega, ?_⟩
      rw [if_neg (show ¬((A.v.length : Int) = 0) by exact_mod_cast hAn)]
      by_cases hlt : i0 < 0
      · rw [if_pos hlt, if_pos hlt]
      · rw [if_neg hlt, if_neg hlt]
        norm_num
    simp only [a1_call]
    rw [hc]
  · have hc : Check (ix - ox) v.length 1 1 ox = Except.error
        ⟨1, 1, ix, if ix < ox then BoundTail.below ox
                   else BoundTail.above (ox + (v.length : Int) - 1)⟩ := by
      rw [Check, if_pos (by omega)]
      congr 1
      simp only [BoundsReport.mk.injEq, true_and]
      refine ⟨by omega, ?_⟩
      rw [if_neg (show ¬((v.length : Int) = 0) by exact_mod_cast hvn)]
      by_cases hlt : ix < ox
      · rw [if_pos (by omega), if_pos hlt]
      · rw [if_neg (by omega), if_neg hlt]
        congr 1
        omega
    simp only [A1_sub]
    rw [hc]
  · have hc : Check jx nx 2 1 0 = Except.error
        ⟨2, 1, jx, if jx < 0 then BoundTail.below 0
                   else BoundTail.above ((nx : Int) - 1)⟩ := by
      rw [Check, if_pos (by omega)]
      congr 1
      simp only [BoundsReport.mk.injEq, true_and]
      refine ⟨by omega, ?_⟩
      rw [if_neg (show ¬((nx : Int) = 0) by exact_mod_cast hnx)]
      by_cases hlt : jx < 0
      · rw [if_pos hlt, if_pos hlt]
      · rw [if_neg hlt, if_neg hlt]
        norm_num
    simp only [a2_call2]
    rw [hc]
  · have hok : Check jy nx 2 1 0 = Except.ok () := by
      rw [Check, if_neg (by omega)]
    have hc : Check iy ny 2 2 0 = Except.error
        ⟨2, 2, iy, if iy < 0 then BoundTail.below 0
                   else BoundTail.above ((ny : Int) - 1)⟩ := by
      rw [Check, if_pos (by omega)]
      congr 1
      simp only [BoundsReport.mk.injEq, true_and]
      refine ⟨by omega, ?_⟩
      rw [if_neg (show ¬((ny : Int) = 0) by exact_mod_cast hny)]
      by_cases hlt : iy < 0
      · rw [if_pos hlt, if_pos hlt]
      · rw [if_neg hlt, if_neg hlt]
        norm_num
    simp only [a2_call2]
    rw [hok, hc]

/-- Witness for C8: a length-2 array read at `3`; offset window `[5, 7)` read
at `3`; a `2 × 3` array read at `(7, -1)` and at `(0, -1)`. -/
theorem bounds_fault_reported_witness :
    a1_call ⟨[1, 2], true⟩ 3 = Except.error
      ⟨1, 1, 3, if (3 : Int) < 0 then BoundTail.below 0
                else BoundTail.above (((([1, 2] : List ℚ)).length : Int) - 1)⟩ ∧
    A1_sub [1, 2] 5 3 = Except.error
      ⟨1, 1, 3, if (3 : Int) < 5 then BoundTail.below 5
                else BoundTail.above (5 + ((([1, 2] : List ℚ)).length : Int) - 1)⟩ ∧
    a2_call2 2 3 [0, 0, 0, 0, 0, 0] 7 (-1) = Except.error
      ⟨2, 1, 7, if (7 : Int) < 0 then BoundTail.below 0
                else BoundTail.above (((2 : Nat) : Int) - 1)⟩ ∧
    a2_call2 2 3 [0, 0, 0, 0, 0, 0] 0 (-1) = Except.error
      ⟨2, 2, -1, if (-1 : Int) < 0 then BoundTail.below 0
                 else BoundTail.above (((3 : Nat) : Int) - 1)⟩ :=
  bounds_fault_reported ⟨[1, 2], true⟩ 3 [1, 2] 5 3 2 3 [0, 0, 0, 0, 0, 0] 7 0 (-1)
    (by norm_num) (by norm_num) (by norm_num) (by norm_num) (by norm_num)
    (by norm_num) (by norm_num) (by norm_num) (by norm_num)

/-! ### Scalar compound operators of the 2-D array (C10) -/

theorem succ_mod_char (inc j : Nat) (h : 0 < inc) :
    (j + 1) % inc = if j % inc + 1 = inc then 0 else j % inc + 1 := by
  have h1 : j % inc < inc := Nat.mod_lt _ h
  conv_lhs => rw [← Nat.mod_add_div j inc]
  rw [Nat.add_right_comm, Nat.add_mul_mod_self_left]
  by_cases he : j % inc + 1 = inc
  · rw [if_pos he, he, Nat.mod_self]
  · rw [if_neg he, Nat.mod_eq_of_lt (by omega)]

theorem stepUpd_getD (f : ℚ → ℚ) (inc : Nat) (hinc : 0 < inc) :
    ∀ (l : List ℚ) (c j : Nat), c < inc → j < l.length →
      (stepUpd f inc c l).getD j 0 =
        if j % inc = c then f (l.getD j 0) else l.getD j 0 := by
  intro l
  induction l with
  | nil => intro c j _ hj; simp at hj
  | cons x xs ih =>
    intro c j hc hj
    have hmlt : j % inc < inc := Nat.mod_lt _ hinc
    rcases c with _ | c <;> rcases j with _ | j
    · simp [stepUpd, Nat.zero_mod]
    · rw [stepUpd]
      simp only [List.getD_cons_succ]
      rw [ih (inc - 1) j (by omega) (by simpa using hj)]
      have h1 : j % inc < inc := Nat.mod_lt _ hinc
      have hiff : ((j + 1) % inc = 0) ↔ (j % inc = inc - 1) := by
        rw [succ_mod_char inc j hinc]
        by_cases he2 : j % inc + 1 = inc
        · rw [if_pos he2]; omega
        · rw [if_neg he2]; omega
      rw [if_congr hiff.symm rfl rfl]
    · rw [stepUpd]
      simp only [List.getD_cons_zero]
      rw [if_neg (by rw [Nat.zero_mod]; omega)]
    · rw [stepUpd]
      simp only [List.getD_cons_succ]
      rw [ih c j (by omega) (by simpa using hj)]
      have h1 : j % inc < inc := Nat.mod_lt _ hinc
      have hiff : ((j + 1) % inc = c + 1) ↔ (j % inc = c) := by
        rw [succ_mod_char inc j hinc]
        by_cases he2 : j % inc + 1 = inc
        · rw [if_pos he2]; omega
        · rw [if_neg he2]; omega
      rw [if_congr hiff.symm rfl rfl]

/-- C10 counterexample: on the `5 × 2` array of zeroes, scalar `+=` also
updates flat index `6`, whose coordinates `(6 / ny, 6 % ny) = (3, 0)` are off
the main diagonal. -/
theorem scalar_add_touches_offdiag_cex :
    a2_scalarAdd cDiag 1 = Except.ok [1, 0, 0, 1, 0, 0, 1, 0, 0, 1] ∧
      (6 : Nat) / cDiag.ny ≠ 6 % cDiag.ny := by
  constructor
  · norm_num [a2_scalarAdd, cDiag, checkSize2, Except.bind, stepUpd]
  · decide

/-- C10 (amended): the 2-D scalar `+=` and `-=` update exactly the flat
indices that are multiples of `ny+1`, leaving every other element unchanged;
those indices are the main-diagonal positions `(i, i)` whenever
`nx ≤ ny + 1` (in particular for square arrays), while the 1-D scalar `+=`
updates every element. -/
theorem a2_scalar_updates_stride (A : CArr2) (A1 : CArr1) (a b : ℚ) (j k : Nat)
    (hA : A.allocated = true) (hA1 : A1.allocated = true)
    (hj : j < A.v.length) (hk : k < A1.v.length) :
    (a2_scalarAdd A a = Except.ok (stepUpd (fun x => x + a) (A.ny + 1) 0 A.v) ∧
      (stepUpd (fun x => x + a) (A.ny + 1) 0 A.v).getD j 0 =
        if j % (A.ny + 1) = 0 then A.v.getD j 0 + a else A.v.getD j 0) ∧
    (a2_scalarSub A a = Except.ok (stepUpd (fun x => x - a) (A.ny + 1) 0 A.v) ∧
      (stepUpd (fun x => x - a) (A.ny + 1) 0 A.v).getD j 0 =
        if j % (A.ny + 1) = 0 then A.v.getD j 0 - a else A.v.getD j 0) ∧
    (A.nx ≤ A.ny + 1 → j % (A.ny + 1) = 0 → j < A.nx * A.ny →
      j / A.ny = j % A.ny) ∧
    (a1_scalarAdd A1 b = Except.ok (A1.v.map (fun x => x + b)) ∧
      (A1.v.map (fun x => x + b)).getD k 0 = A1.v.getD k 0 + b) := by
  have hcs2 : checkSize2 A = Except.ok () := by
    rw [checkSize2, if_neg (by simp [hA])]
  have hcs1 : checkSize1 A1 = Except.ok () := by
    rw [checkSize1, if_neg (by simp [hA1])]
  refine ⟨⟨?_, ?_⟩, ⟨?_, ?_⟩, ?_, ?_, ?_⟩
  · rw [a2_scalarAdd, hcs2, Except.bind]
  · exact stepUpd_getD (fun x => x + a) (A.ny + 1) (by omega) A.v 0 j (by omega) hj
  · rw [a2_scalarSub, hcs2, Except.bind]
  · exact stepUpd_getD (fun x => x - a) (A.ny + 1) (by omega) A.v 0 j (by omega) hj
  · intro hnx hdvd hlt
    have hny : 0 < A.ny := by
      rcases Nat.eq_zero_or_pos A.ny with h0 | h0
      · rw [h0, Nat.mul_zero] at hlt; omega
      · exact h0
    obtain ⟨t, ht⟩ := Nat.dvd_of_mod_eq_zero hdvd
    have htlt : t < A.ny := by
      have hj2 : (A.ny + 1) * t < (A.ny + 1) * A.ny := by
        calc (A.ny + 1) * t = j := ht.symm
          _ < A.nx * A.ny := hlt
          _ ≤ (A.ny + 1) * A.ny := Nat.mul_le_mul_right _ hnx
      exact Nat.lt_of_mul_lt_mul_left hj2
    have ht2 : j = A.ny * t + t := by rw [ht]; ring
    rw [ht2, Nat.mul_add_div hny, Nat.mul_add_mod, Nat.div_eq_of_lt htlt,
      Nat.mod_eq_of_lt htlt]
    omega
  · rw [a1_scalarAdd, hcs1, Except.bind]
  · rw [List.getD_eq_getElem?_getD, List.getElem?_map,
      List.getElem?_eq_getElem hk]
    simp [List.getD_eq_getElem?_getD, List.getElem?_eq_getElem hk]

/-- Witness for the amended C10: the `5 × 2` zero array with `+= 1` and
`-= 1` at flat index `6`, and a 1-D array with `+= 4` at index `1`. -/
theorem a2_scalar_updates_stride_witness :
    ((a2_scalarAdd cDiag 1 = Except.ok (stepUpd (fun x => x + 1) (cDiag.ny + 1) 0 cDiag.v) ∧
      (stepUpd (fun x => x + 1) (cDiag.ny + 1) 0 cDiag.v).getD 6 0 =
        if 6 % (cDiag.ny + 1) = 0 then cDiag.v.getD 6 0 + 1 else cDiag.v.getD 6 0) ∧
    (a2_scalarSub cDiag 1 = Except.ok (stepUpd (fun x => x - 1) (cDiag.ny + 1) 0 cDiag.v) ∧
      (stepUpd (fun x => x - 1) (cDiag.ny + 1) 0 cDiag.v).getD 6 0 =
        if 6 % (cDiag.ny + 1) = 0 then cDiag.v.getD 6 0 - 1 else cDiag.v.getD 6 0) ∧
    (cDiag.nx ≤ cDiag.ny + 1 → 6 % (cDiag.ny + 1) = 0 → 6 < cDiag.nx * cDiag.ny →
      6 / cDiag.ny = 6 % cDiag.ny) ∧
    (a1_scalarAdd cSelf1 4 = Except.ok (cSelf1.v.map (fun x => x + 4)) ∧
      (cSelf1.v.map (fun x => x + 4)).getD 1 0 = cSelf1.v.getD 1 0 + 4)) :=
  a2_scalar_updates_stride cDiag cSelf1 1 4 6 1 rfl rfl (by decide) (by decide)

end Inovesa
